import Mathlib

/- Verification development for the opencoverage coverage-reporting system.

The repository ships the presentation page
src/app/pages/[org]/repos/[repo]/commits/[commit]/report.js, which is
embedded below (ReportUrls, ReportPage, renderRow, renderTable,
fileLinkHref, coverageCellText).  The ingestion/aggregation/storage engine
(Normalizer, Aggregator, Store, Query API) is not part of the checked-in
sources, so it is modelled from spec.md, section by section; every such
definition carries a doc comment starting with "Modelled from the spec:".
Rates, which the engine computes as 64-bit floats, are modelled as exact
rationals. -/

namespace OpenCoverage

/-- Splits a list of characters on a separator character; always returns at
least one (possibly empty) segment. -/
def splitOnChar (c : Char) : List Char → List (List Char)
  | [] => [[]]
  | x :: xs =>
    let r := splitOnChar c xs
    if x = c then [] :: r
    else (x :: r.headD []) :: r.tail

/-- Canonical per-file coverage draft: normalized filename plus line
counts (spec section 3, FileCoverage). -/
structure FileDraft where
  filename : String
  total_lines : Nat
  covered_lines : Nat
deriving Repr, DecidableEq

/-- Modelled from the spec: per-file line_rate (section 4.2).  A file with
total_lines = 0 is flagged as "no executable lines" (None) rather than
treated as 100% or 0%. -/
def fileLineRate (f : FileDraft) : Option ℚ :=
  if 0 < f.total_lines then
    some ((f.covered_lines : ℚ) / (f.total_lines : ℚ))
  else none

/-- Modelled from the spec: report-level rollup (section 4.2), the
line-weighted formula "sum covered_lines / sum total_lines over files with
total_lines > 0"; None when no file has executable lines (aggregate
reported as undefined rather than 0 or 1). -/
def reportLineRate (files : List FileDraft) : Option ℚ :=
  let fs := files.filter (fun f => 0 < f.total_lines)
  if fs.isEmpty then none
  else some ((fs.map (fun f => (f.covered_lines : ℚ))).sum /
    (fs.map (fun f => (f.total_lines : ℚ))).sum)

/-- Modelled from the spec: the package of a file is its top-level
directory (section 4.2, default grouping depth). -/
def packageOf (f : FileDraft) : String :=
  String.mk ((splitOnChar '/' f.filename.data).headD [])

/-- Modelled from the spec: package rollup (section 4.2), the same weighted
formula restricted to the files grouped under one top-level directory. -/
def packageLineRate (files : List FileDraft) (pkg : String) : Option ℚ :=
  reportLineRate (files.filter (fun f => packageOf f == pkg))

/-- Modelled from the spec: a persisted Report row (section 3): one upload
event for a commit, carrying the aggregate rollups and the current flag. -/
structure Report where
  id : Nat
  org : String
  repo : String
  commit : String
  contentHash : String
  files : List FileDraft
  lineRate : Option ℚ
  totalLines : Nat
  coveredLines : Nat
  current : Bool
deriving Repr, DecidableEq

/-- Modelled from the spec: the Store state (section 4.3), the list of
persisted Report rows in insertion order plus an id counter. -/
structure Store where
  reports : List Report
  nextId : Nat
deriving Repr, DecidableEq

/-- Predicate for the uniqueness key (commit identity, content hash) of the
reports table (spec section 6). -/
def matchesKey (o r c h : String) (rep : Report) : Bool :=
  rep.org == o && rep.repo == r && rep.commit == c && rep.contentHash == h

/-- Modelled from the spec: lookup of an existing Report with the same
(commit, contentHash) key (section 4.3, idempotency guard). -/
def findReport (s : Store) (o r c h : String) : Option Report :=
  s.reports.find? (matchesKey o r c h)

/-- Modelled from the spec: Upload (section 4.3).  If a Report with the
same (commit, contentHash) exists it is returned unchanged; otherwise a new
Report with its rollups is appended, the commit's previous current Report
is demoted, and the new one is marked current. -/
def Upload (s : Store) (o r c h : String) (files : List FileDraft) :
    Store × Report :=
  match findReport s o r c h with
  | some rep => (s, rep)
  | none =>
    let rep : Report :=
      { id := s.nextId, org := o, repo := r, commit := c, contentHash := h,
        files := files, lineRate := reportLineRate files,
        totalLines := (files.map (fun f => f.total_lines)).sum,
        coveredLines := (files.map (fun f => f.covered_lines)).sum,
        current := true }
    ({ reports :=
        s.reports.map (fun p =>
          if p.org == o && p.repo == r && p.commit == c then
            { p with current := false }
          else p) ++ [rep],
       nextId := s.nextId + 1 }, rep)

/-- Modelled from the spec: GetCurrentReport (section 4.3), the single
Report of the commit marked current. -/
def GetCurrentReport (s : Store) (o r c : String) : Option Report :=
  s.reports.find? (fun rep =>
    rep.org == o && rep.repo == r && rep.commit == c && rep.current)

/-- Ordering of file drafts by filename, the sort key of ListFiles. -/
def fileLE (a b : FileDraft) : Prop :=
  a.filename ≤ b.filename

instance : DecidableRel fileLE := fun a b =>
  inferInstanceAs (Decidable (a.filename ≤ b.filename))

instance : IsTotal FileDraft fileLE :=
  ⟨fun a b => le_total a.filename b.filename⟩

instance : IsTrans FileDraft fileLE :=
  ⟨fun _ _ _ hab hbc => le_trans hab hbc⟩

/-- Sorting of a report's files by filename ascending. -/
def sortByFilename (files : List FileDraft) : List FileDraft :=
  List.insertionSort fileLE files

/-- Modelled from the spec: ListFiles (section 4.3), all FileCoverage rows
of the current Report ordered by filename ascending. -/
def ListFiles (s : Store) (o r c : String) : Option (List FileDraft) :=
  (GetCurrentReport s o r c).map (fun rep => sortByFilename rep.files)

/-- Aggregate summary returned by GET .../report (spec section 6). -/
structure ReportSummary where
  line_rate : Option ℚ
  total_lines : Nat
  covered_lines : Nat
deriving Repr, DecidableEq

/-- One record of the result list of GET .../files (spec section 6):
filename, line_rate, total_lines, covered_lines. -/
structure FileRow where
  filename : String
  line_rate : ℚ
  total_lines : Nat
  covered_lines : Nat
deriving Repr, DecidableEq

/-- Response body of GET .../files (spec section 6): an object with a
result field holding the list of file records. -/
structure FilesResponse where
  result : List FileRow
deriving Repr, DecidableEq

/-- Modelled from the spec: the GET .../report endpoint (section 6), a pure
projection of Store state. -/
def apiReport (s : Store) (o r c : String) : Option ReportSummary :=
  (GetCurrentReport s o r c).map (fun rep =>
    { line_rate := rep.lineRate, total_lines := rep.totalLines,
      covered_lines := rep.coveredLines })

/-- Modelled from the spec: the GET .../files endpoint (section 6),
serializing ListFiles into the result list. -/
def apiFiles (s : Store) (o r c : String) : Option FilesResponse :=
  (ListFiles s o r c).map (fun fs =>
    { result := fs.map (fun f =>
        { filename := f.filename, line_rate := (fileLineRate f).getD 0,
          total_lines := f.total_lines, covered_lines := f.covered_lines }) })

/-- Modelled from the spec: error taxonomy of the Normalizer
(sections 4.1 and 7). -/
inductive NormError where
  | parseError : NormError
  | unsupportedFormatError : NormError
  | invalidPathError : NormError
deriving Repr, DecidableEq

/-- Modelled from the spec: the closed set of raw-format tags dispatched by
the Normalizer (section 9); the source ecosystem's parsers are represented
by one canonical tag. -/
inductive CoverageFormat where
  | cobertura : CoverageFormat
deriving Repr, DecidableEq

/-- One structurally well-formed file entry of a raw payload, the input of
the Normalizer's path-normalization stage (byte-level parsing of the raw
formats is abstracted away). -/
structure RawFileEntry where
  filename : String
  total_lines : Nat
  covered_lines : Nat
deriving Repr, DecidableEq

/-- A path is absolute when it starts with a slash. -/
def isAbsolutePath (p : String) : Bool :=
  match p.data with
  | [] => false
  | ch :: _ => ch = '/'

/-- Slash-separated segments of a path. -/
def pathSegments (p : String) : List (List Char) :=
  splitOnChar '/' p.data

/-- A path contains a traversal segment when one of its slash-separated
segments is "..". -/
def hasTraversal (p : String) : Bool :=
  (pathSegments p).contains ['.', '.']

/-- Drops redundant path segments: empty segments (doubled or trailing
slashes) and "." segments. -/
def cleanSegments (segs : List (List Char)) : List (List Char) :=
  segs.filter (fun s => !s.isEmpty && s != ['.'])

/-- Joins path segments back with slashes. -/
def joinSegments : List (List Char) → List Char
  | [] => []
  | [s] => s
  | s :: rest => s ++ '/' :: joinSegments rest

/-- Modelled from the spec: filename normalization (section 4.1): strips
redundant path segments, rejects absolute paths or path-traversal segments
with InvalidPathError. -/
def normalizePath (p : String) : Except NormError String :=
  if isAbsolutePath p then Except.error NormError.invalidPathError
  else if hasTraversal p then Except.error NormError.invalidPathError
  else Except.ok (String.mk (joinSegments (cleanSegments (pathSegments p))))

/-- Normalizes every file entry of a payload in order, propagating the
first path error. -/
def normFiles : List RawFileEntry → Except NormError (List FileDraft)
  | [] => Except.ok []
  | e :: rest =>
    match normalizePath e.filename with
    | Except.error err => Except.error err
    | Except.ok fn =>
      match normFiles rest with
      | Except.error err => Except.error err
      | Except.ok fs =>
        Except.ok (FileDraft.mk fn e.total_lines e.covered_lines :: fs)

/-- Modelled from the spec: duplicate-filename policy (section 4.1), last
occurrence wins. -/
def dedupLastWins (l : List FileDraft) : List FileDraft :=
  l.foldl (fun acc f =>
    acc.filter (fun g => g.filename != f.filename) ++ [f]) []

/-- Modelled from the spec: the Normalizer (section 4.1), a pure function
from a (parsed) payload and a format tag to a canonical draft or an
error. -/
def normalizeDraft (fmt : CoverageFormat) (payload : List RawFileEntry) :
    Except NormError (List FileDraft) :=
  match fmt with
  | CoverageFormat.cobertura => (normFiles payload).map dedupLastWins

/-- Route parameters of the report page (org, repo, commit). -/
structure Params where
  org : String
  repo : String
  commit : String
deriving Repr, DecidableEq

/-- The href of a per-file detail link, built by the string concatenation
of report.js lines 30-39. -/
def fileLinkHref (params : Params) (filename : String) : String :=
  "/" ++ params.org ++ "/repos/" ++ params.repo ++ "/commits/" ++
    params.commit ++ "/file?filename=" ++ filename

/-- The toFixed(1) formatting of a nonnegative number: the nearest multiple
of 1/10, ties rounded up, printed with one digit after the decimal
point. -/
def toFixed1 (q : ℚ) : String :=
  let n : ℤ := ⌊q * 10 + 1 / 2⌋
  toString (n / 10) ++ "." ++ toString (n % 10)

/-- The text of the coverage cell of report.js line 45:
(value.line_rate * 100).toFixed(1) followed by a percent sign. -/
def coverageCellText (line_rate : ℚ) : String :=
  toFixed1 (line_rate * 100) ++ "%"

/-- One rendered table row of ReportUrls: the React key, the link, and the
color-coded coverage cell. -/
structure RenderedRow where
  key : String
  linkHref : String
  linkText : String
  cellClass : String
  cellText : String
deriving Repr, DecidableEq

/-- The row rendered for one element of the response's result list
(report.js lines 25-48); calcTagClassName is the classifier imported from
utils, kept abstract. -/
def renderRow (calcTagClassName : ℚ → String) (params : Params)
    (v : FileRow) : RenderedRow :=
  { key := v.filename
    linkHref := fileLinkHref params v.filename
    linkText := v.filename
    cellClass := calcTagClassName v.line_rate
    cellText := coverageCellText v.line_rate }

/-- The table body rendered by ReportUrls: one row per element of
data.result, in order (report.js line 25). -/
def renderTable (calcTagClassName : ℚ → String) (params : Params)
    (resp : FilesResponse) : List RenderedRow :=
  resp.result.map (renderRow calcTagClassName params)

/-- Abstracted render tree of the page components. -/
inductive Html where
  | emptyDiv : Html
  | filesTable (rows : List RenderedRow) : Html
  | reportContainer (report : ReportSummary) (urls : Html) : Html
deriving Repr

/-- The ReportUrls component (report.js lines 8-53): on missing data it
renders an empty div, otherwise the files table. -/
def ReportUrls (calcTagClassName : ℚ → String) (params : Params)
    (data : Option FilesResponse) (error : Option String) : Html :=
  match data with
  | none => Html.emptyDiv
  | some resp => Html.filesTable (renderTable calcTagClassName params resp)

/-- The ReportPage component (report.js lines 55-73): on missing data it
renders an empty div, otherwise the container embedding ReportUrls. -/
def ReportPage (calcTagClassName : ℚ → String) (params : Params)
    (reportData : Option ReportSummary) (reportError : Option String)
    (filesData : Option FilesResponse) (filesError : Option String) : Html :=
  match reportData with
  | none => Html.emptyDiv
  | some rep =>
    Html.reportContainer rep
      (ReportUrls calcTagClassName params filesData filesError)

/-- The query string of a URL: the characters after the first question mark
of the part before the first hash. -/
def queryOf (url : String) : List Char :=
  ((url.data.takeWhile (fun ch => ch ≠ '#')).dropWhile
    (fun ch => ch ≠ '?')).drop 1

/-- The key-value pairs of a URL's query string, split on ampersands, each
pair split at its first equals sign. -/
def queryParams (url : String) : List (List Char × List Char) :=
  (splitOnChar '&' (queryOf url)).map (fun kv =>
    (kv.takeWhile (fun ch => ch ≠ '='),
     (kv.dropWhile (fun ch => ch ≠ '=')).drop 1))

/-- The value a standard query-string parser recovers for a parameter name
from a URL. -/
def getQueryParam (url : String) (name : String) : Option String :=
  ((queryParams url).find? (fun kv => kv.fst == name.data)).map
    (fun kv => String.mk kv.snd)

/-- The round-trip example payload of spec section 8: f1 covers 10 of 10
lines, f2 covers 0 of 10. -/
def demoPayload : List FileDraft :=
  [FileDraft.mk "f1" 10 10, FileDraft.mk "f2" 10 0]

/-- Store obtained by uploading the round-trip example payload into an
empty store. -/
def demoStore : Store :=
  (Upload (Store.mk [] 0) "o" "r" "c" "h" demoPayload).1

/-- The Report row produced by uploading an empty payload into an empty
store. -/
def demoIdemReport : Report :=
  Report.mk 0 "o" "r" "c" "h" [] none 0 0 true

/-- The store holding exactly that one row. -/
def demoIdemStore : Store :=
  Store.mk [demoIdemReport] 1

/-- A store holding one current report with a single file. -/
def demoSortStore : Store :=
  Store.mk [Report.mk 0 "o" "r" "c" "h" [FileDraft.mk "b.js" 1 1]
    none 1 1 true] 1

/-- A one-element files response. -/
def demoResp : FilesResponse :=
  FilesResponse.mk [FileRow.mk "a.js" (1 / 2) 10 5]

/-- A sample tag classifier standing in for calcTagClassName. -/
def demoTag : ℚ → String := fun _ => "is-success"

/-- The page parameters of the demo. -/
def demoParams : Params := Params.mk "o" "r" "c"

/-- The weighted total-line sum of the files with executable lines is
positive as soon as one such file exists. -/
theorem filtered_total_sum_pos (files : List FileDraft)
    (hne : files.filter (fun f => 0 < f.total_lines) ≠ []) :
    0 < ((files.filter (fun f => 0 < f.total_lines)).map
      (fun f => (f.total_lines : ℚ))).sum := by
  apply List.sum_pos
  · intro x hx
    obtain ⟨f, hf, rfl⟩ := List.mem_map.1 hx
    have : 0 < f.total_lines := by simpa using (List.mem_filter.1 hf).2
    exact_mod_cast this
  · simpa using hne

/-- When some file has executable lines, the report rollup is defined and
equals the quotient of the filtered sums. -/
theorem reportLineRate_eq_some (files : List FileDraft)
    (hne : files.filter (fun f => 0 < f.total_lines) ≠ []) :
    reportLineRate files =
      some (((files.filter (fun f => 0 < f.total_lines)).map
          (fun f => (f.covered_lines : ℚ))).sum /
        ((files.filter (fun f => 0 < f.total_lines)).map
          (fun f => (f.total_lines : ℚ))).sum) := by
  unfold reportLineRate
  rw [if_neg]
  simpa [List.isEmpty_iff] using hne

/-- Whenever the report rollup is defined, it lies in the unit interval,
provided every file covers at most its total lines. -/
theorem reportLineRate_bounds (files : List FileDraft)
    (hc : ∀ f ∈ files, f.covered_lines ≤ f.total_lines) (q : ℚ)
    (hq : reportLineRate files = some q) : 0 ≤ q ∧ q ≤ 1 := by
  have hne : files.filter (fun f => 0 < f.total_lines) ≠ [] := by
    intro hnil
    rw [reportLineRate, hnil] at hq
    simp at hq
  rw [reportLineRate_eq_some files hne] at hq
  have hq' := Option.some.inj hq
  have hden := filtered_total_sum_pos files hne
  have hnum : 0 ≤ ((files.filter (fun f => 0 < f.total_lines)).map
      (fun f => (f.covered_lines : ℚ))).sum := by
    apply List.sum_nonneg
    intro x hx
    obtain ⟨f, _, rfl⟩ := List.mem_map.1 hx
    positivity
  have hle : ((files.filter (fun f => 0 < f.total_lines)).map
      (fun f => (f.covered_lines : ℚ))).sum ≤
      ((files.filter (fun f => 0 < f.total_lines)).map
      (fun f => (f.total_lines : ℚ))).sum := by
    apply List.sum_le_sum
    intro f _
    have := hc f (List.mem_of_mem_filter (by assumption))
    exact_mod_cast this
  subst hq'
  exact ⟨div_nonneg hnum hden.le, (div_le_one hden).2 hle⟩

/-- C1: for every Report, the report-level line_rate equals the
line-weighted mean of its files' rates (total-line weights), files with no
executable lines excluded from the denominator; and for the example payload
with files f1: 10/10 and f2: 0/10, the aggregate line_rate is 1/2 and is
the value returned by GetCurrentReport and by the GET .../report
endpoint. -/
theorem reportLineRate_weighted_mean (files : List FileDraft)
    (hex : ∃ f ∈ files, 0 < f.total_lines) :
    reportLineRate files =
      some (((files.filter (fun f => 0 < f.total_lines)).map
          (fun f => (f.total_lines : ℚ) *
            ((f.covered_lines : ℚ) / (f.total_lines : ℚ)))).sum /
        ((files.filter (fun f => 0 < f.total_lines)).map
          (fun f => (f.total_lines : ℚ))).sum) ∧
    (GetCurrentReport demoStore "o" "r" "c").map Report.lineRate =
      some (some (1 / 2)) ∧
    (apiReport demoStore "o" "r" "c").map ReportSummary.line_rate =
      some (some (1 / 2)) := by
  obtain ⟨f0, hf0, hpos0⟩ := hex
  have hne : files.filter (fun f => 0 < f.total_lines) ≠ [] :=
    List.ne_nil_of_mem (List.mem_filter.2 ⟨hf0, by simpa using hpos0⟩)
  refine ⟨?_, ?_, ?_⟩
  · rw [reportLineRate_eq_some files hne]
    have hmaps : (files.filter (fun f => 0 < f.total_lines)).map
        (fun f => (f.total_lines : ℚ) *
          ((f.covered_lines : ℚ) / (f.total_lines : ℚ))) =
        (files.filter (fun f => 0 < f.total_lines)).map
          (fun f => (f.covered_lines : ℚ)) := by
      apply List.map_congr_left
      intro f hf
      have hpos : 0 < f.total_lines := by
        simpa using (List.mem_filter.1 hf).2
      have ht : (f.total_lines : ℚ) ≠ 0 := by positivity
      rw [mul_div_assoc', mul_div_cancel_left₀ _ ht]
    rw [hmaps]
  · simp [demoStore, demoPayload, Upload, findReport, GetCurrentReport,
      reportLineRate, List.filter]
    norm_num
  · simp [apiReport, demoStore, demoPayload, Upload, findReport,
      GetCurrentReport, reportLineRate, List.filter]
    norm_num

/-- Witness for C1 at the one-file payload a: 1/2 lines covered. -/
theorem reportLineRate_weighted_mean_witness :
    (∃ f ∈ [FileDraft.mk "a" 2 1], 0 < f.total_lines) ∧
    reportLineRate [FileDraft.mk "a" 2 1] =
      some ((([FileDraft.mk "a" 2 1].filter (fun f => 0 < f.total_lines)).map
          (fun f => (f.total_lines : ℚ) *
            ((f.covered_lines : ℚ) / (f.total_lines : ℚ)))).sum /
        (([FileDraft.mk "a" 2 1].filter (fun f => 0 < f.total_lines)).map
          (fun f => (f.total_lines : ℚ))).sum) :=
  ⟨by decide,
    (reportLineRate_weighted_mean [FileDraft.mk "a" 2 1] (by decide)).1⟩

/-- Demoting the current flag of a report does not change its uniqueness
key. -/
theorem matchesKey_demote (o r c h : String) (cond : Bool) (p : Report) :
    matchesKey o r c h
      (if cond then { p with current := false } else p) =
    matchesKey o r c h p := by
  cases cond <;> rfl

/-- After a fresh Upload, looking the key up again finds exactly the
freshly inserted report. -/
theorem findReport_after_upload (s : Store) (o r c h : String)
    (files : List FileDraft) (hnew : findReport s o r c h = none) :
    findReport (Upload s o r c h files).1 o r c h =
      some (Upload s o r c h files).2 := by
  unfold Upload
  rw [hnew]
  unfold findReport
  rw [List.find?_append]
  have hleft : (s.reports.map (fun p =>
      if p.org == o && p.repo == r && p.commit == c then
        { p with current := false }
      else p)).find? (matchesKey o r c h) = none := by
    rw [List.find?_eq_none]
    intro x hx
    obtain ⟨p, hp, rfl⟩ := List.mem_map.1 hx
    rw [matchesKey_demote]
    have := List.find?_eq_none.1 hnew p hp
    simpa using this
  rw [hleft]
  simp [matchesKey]

/-- C2: Upload is idempotent on payload content: after a first Upload of a
commit/content pair unknown to the store, exactly one matching Report row
is persisted, and a second Upload of the same content returns the same
store and the same Report, with no state change. -/
theorem Upload_idempotent (s : Store) (o r c h : String)
    (files : List FileDraft) (hnew : findReport s o r c h = none)
    (s1 : Store) (rep1 : Report)
    (hu : Upload s o r c h files = (s1, rep1)) :
    Upload s1 o r c h files = (s1, rep1) ∧
    s1.reports.countP (matchesKey o r c h) = 1 := by
  constructor
  · have hfind : findReport s1 o r c h = some rep1 := by
      have := findReport_after_upload s o r c h files hnew
      rw [hu] at this
      exact this
    unfold Upload
    rw [hfind]
  · have hu' := hu
    unfold Upload at hu'
    rw [hnew] at hu'
    injection hu' with h1 h2
    subst h1
    show (List.map _ s.reports ++ [_]).countP (matchesKey o r c h) = 1
    rw [List.countP_append, List.countP_map]
    have hzero : s.reports.countP ((matchesKey o r c h) ∘ (fun p =>
        if p.org == o && p.repo == r && p.commit == c then
          { p with current := false }
        else p)) = 0 := by
      rw [List.countP_eq_zero]
      intro p hp
      simp only [Function.comp_apply]
      rw [matchesKey_demote]
      exact List.find?_eq_none.1 hnew p hp
    rw [hzero]
    simp [List.countP, List.countP.go, matchesKey]

/-- Witness for C2: uploading into the empty store and replaying the same
content. -/
theorem Upload_idempotent_witness :
    findReport (Store.mk [] 0) "o" "r" "c" "h" = none ∧
    (Upload demoIdemStore "o" "r" "c" "h" [] =
        (demoIdemStore, demoIdemReport) ∧
      demoIdemStore.reports.countP (matchesKey "o" "r" "c" "h") = 1) :=
  ⟨rfl, Upload_idempotent (Store.mk [] 0) "o" "r" "c" "h" [] rfl
    demoIdemStore demoIdemReport (by decide)⟩

/-- C3: for every stored Report, ListFiles returns all FileCoverage rows of
the current Report, sorted by filename ascending, whatever the input order
of the files; the GET .../files endpoint serves them in the same order. -/
theorem ListFiles_sorted (s : Store) (o r c : String) (fs : List FileDraft)
    (hfs : ListFiles s o r c = some fs) :
    (∃ rep, GetCurrentReport s o r c = some rep ∧ fs.Perm rep.files) ∧
    List.Sorted fileLE fs ∧
    (∀ resp, apiFiles s o r c = some resp →
      List.Sorted (fun a b : String => a ≤ b)
        (resp.result.map (fun v => v.filename))) := by
  unfold ListFiles at hfs
  cases hrep : GetCurrentReport s o r c with
  | none => rw [hrep] at hfs; simp at hfs
  | some rep =>
    rw [hrep] at hfs
    have hfs' : fs = sortByFilename rep.files := by
      simpa using hfs.symm
    subst hfs'
    refine ⟨⟨rep, rfl, List.perm_insertionSort fileLE rep.files⟩,
      List.sorted_insertionSort fileLE rep.files, ?_⟩
    intro resp hresp
    unfold apiFiles ListFiles at hresp
    rw [hrep] at hresp
    have hres : resp.result = (sortByFilename rep.files).map (fun f =>
        FileRow.mk f.filename ((fileLineRate f).getD 0)
          f.total_lines f.covered_lines) := by
      have := hresp.symm
      simp only [Option.map_some] at this
      have h2 := Option.some.inj this
      rw [h2]
    rw [hres, List.map_map]
    have hsorted := List.sorted_insertionSort fileLE rep.files
    exact hsorted.map _ (fun a b hab => hab)

/-- Witness for C3 at the one-file report of demoSortStore. -/
theorem ListFiles_sorted_witness :
    ListFiles demoSortStore "o" "r" "c" = some [FileDraft.mk "b.js" 1 1] ∧
    List.Sorted fileLE [FileDraft.mk "b.js" 1 1] :=
  ⟨rfl,
    (ListFiles_sorted demoSortStore "o" "r" "c"
      [FileDraft.mk "b.js" 1 1] rfl).2.1⟩

/-- C4: line rates of files, packages and reports always lie in [0, 1];
a file's rate is covered/total exactly when it has executable lines and is
flagged undefined otherwise; files without executable lines are excluded
from every weighted denominator, which stays positive whenever a rollup is
computed (no division by zero), and the report rollup is undefined exactly
when no file has executable lines. -/
theorem line_rate_invariants (f : FileDraft) (files : List FileDraft)
    (pkg : String) (hf : f.covered_lines ≤ f.total_lines)
    (hfiles : ∀ g ∈ files, g.covered_lines ≤ g.total_lines) :
    (0 < f.total_lines →
      fileLineRate f = some ((f.covered_lines : ℚ) / (f.total_lines : ℚ))) ∧
    (f.total_lines = 0 → fileLineRate f = none) ∧
    (∀ q, fileLineRate f = some q → 0 ≤ q ∧ q ≤ 1) ∧
    (∀ q, reportLineRate files = some q → 0 ≤ q ∧ q ≤ 1) ∧
    (∀ q, packageLineRate files pkg = some q → 0 ≤ q ∧ q ≤ 1) ∧
    (files.filter (fun g => 0 < g.total_lines) ≠ [] →
      0 < ((files.filter (fun g => 0 < g.total_lines)).map
        (fun g => (g.total_lines : ℚ))).sum) ∧
    (reportLineRate files = none ↔
      files.filter (fun g => 0 < g.total_lines) = []) := by
  refine ⟨?_, ?_, ?_, ?_, ?_, ?_, ?_⟩
  · intro h
    unfold fileLineRate
    rw [if_pos h]
  · intro h
    unfold fileLineRate
    rw [if_neg]
    omega
  · intro q hq
    unfold fileLineRate at hq
    by_cases h : 0 < f.total_lines
    · rw [if_pos h] at hq
      have hq' := Option.some.inj hq
      subst hq'
      have ht : (0 : ℚ) < f.total_lines := by exact_mod_cast h
      constructor
      · positivity
      · rw [div_le_one ht]
        exact_mod_cast hf
    · rw [if_neg h] at hq
      exact absurd hq (by simp)
  · exact reportLineRate_bounds files hfiles
  · intro q hq
    exact reportLineRate_bounds _
      (fun g hg => hfiles g (List.mem_of_mem_filter hg)) q hq
  · exact filtered_total_sum_pos files
  · constructor
    · intro hnone
      by_contra hne
      rw [reportLineRate_eq_some files hne] at hnone
      exact absurd hnone (by simp)
    · intro hnil
      rw [reportLineRate, hnil]
      rfl

/-- Witness for C4: a half-covered file next to a package file covering 3
of 4 lines. -/
theorem line_rate_invariants_witness :
    (FileDraft.mk "a" 2 1).covered_lines ≤ (FileDraft.mk "a" 2 1).total_lines ∧
    (∀ g ∈ [FileDraft.mk "p/x" 4 3], g.covered_lines ≤ g.total_lines) ∧
    (0 < (FileDraft.mk "a" 2 1).total_lines →
      fileLineRate (FileDraft.mk "a" 2 1) =
        some (((FileDraft.mk "a" 2 1).covered_lines : ℚ) /
          ((FileDraft.mk "a" 2 1).total_lines : ℚ))) :=
  ⟨by decide, by decide,
    (line_rate_invariants (FileDraft.mk "a" 2 1) [FileDraft.mk "p/x" 4 3]
      "p" (by decide) (by decide)).1⟩

/-- C5: one-decimal percentage formatting happens only in the presentation
layer, never in the Aggregator: the engine's per-file rate is stored as the
exact unrounded quotient covered/total, while the page's coverage cell is
the component computing line_rate * 100 rendered to one decimal place; at
the stored rate 2/3 the page shows "66.7%", whose numeric value differs
from the stored rate. -/
theorem formatting_only_in_presentation :
    (∀ f : FileDraft, 0 < f.total_lines →
      fileLineRate f = some ((f.covered_lines : ℚ) / (f.total_lines : ℚ))) ∧
    (∀ (calcTag : ℚ → String) (params : Params) (v : FileRow),
      (renderRow calcTag params v).cellText =
        toFixed1 (v.line_rate * 100) ++ "%") ∧
    fileLineRate (FileDraft.mk "a" 3 2) = some ((2 : ℚ) / 3) ∧
    coverageCellText ((2 : ℚ) / 3) = "66.7%" ∧
    ((2 : ℚ) / 3) ≠ 667 / 1000 := by
  refine ⟨?_, ?_, ?_, ?_, ?_⟩
  · intro f h
    unfold fileLineRate
    rw [if_pos h]
  · intro _ _ _
    rfl
  · unfold fileLineRate
    norm_num
  · unfold coverageCellText toFixed1
    norm_num
    decide
  · norm_num

/-- Witness for C5 at a file covering 1 of 4 lines. -/
theorem formatting_only_in_presentation_witness :
    0 < (FileDraft.mk "a" 4 1).total_lines ∧
    fileLineRate (FileDraft.mk "a" 4 1) =
      some (((FileDraft.mk "a" 4 1).covered_lines : ℚ) /
        ((FileDraft.mk "a" 4 1).total_lines : ℚ)) :=
  ⟨by decide,
    formatting_only_in_presentation.1 (FileDraft.mk "a" 4 1) (by decide)⟩

/-- C6: the files endpoint's response holds a result list of records with
filename, line_rate, total_lines and covered_lines, serialized from the
current report's rows; the page renders exactly one table row per element
of result, showing that element's filename as the link text and a
color-coded percentage cell derived from that element's line_rate. -/
theorem files_endpoint_and_rendering (calcTag : ℚ → String)
    (params : Params) (resp : FilesResponse) :
    (renderTable calcTag params resp).length = resp.result.length ∧
    (∀ i (h1 : i < resp.result.length)
        (h2 : i < (renderTable calcTag params resp).length),
      (renderTable calcTag params resp).get ⟨i, h2⟩ =
        renderRow calcTag params (resp.result.get ⟨i, h1⟩)) ∧
    (∀ v : FileRow, (renderRow calcTag params v).linkText = v.filename ∧
      (renderRow calcTag params v).cellClass = calcTag v.line_rate ∧
      (renderRow calcTag params v).cellText = coverageCellText v.line_rate) ∧
    (∀ s o r c resp2, apiFiles s o r c = some resp2 →
      ∃ rep, GetCurrentReport s o r c = some rep ∧
        resp2.result = (sortByFilename rep.files).map (fun f =>
          FileRow.mk f.filename ((fileLineRate f).getD 0)
            f.total_lines f.covered_lines)) := by
  refine ⟨List.length_map _ _, ?_, ?_, ?_⟩
  · intro i h1 h2
    simp only [renderTable, List.get_eq_getElem, List.getElem_map]
  · intro v
    exact ⟨rfl, rfl, rfl⟩
  · intro s o r c resp2 hresp
    unfold apiFiles ListFiles at hresp
    cases hrep : GetCurrentReport s o r c with
    | none => rw [hrep] at hresp; simp at hresp
    | some rep =>
      rw [hrep] at hresp
      refine ⟨rep, rfl, ?_⟩
      have h2 := Option.some.inj hresp
      rw [← h2]

/-- Witness for C6: the single row of the demo response. -/
theorem files_endpoint_and_rendering_witness :
    (0 : Nat) < demoResp.result.length ∧
    (renderTable demoTag demoParams demoResp).get ⟨0, Nat.zero_lt_one⟩ =
      renderRow demoTag demoParams (demoResp.result.get ⟨0, Nat.zero_lt_one⟩) :=
  ⟨Nat.zero_lt_one,
    (files_endpoint_and_rendering demoTag demoParams demoResp).2.1 0
      Nat.zero_lt_one Nat.zero_lt_one⟩

/-- A path failing normalization is rejected as InvalidPathError. -/
theorem normalizePath_invalid (p : String)
    (h : isAbsolutePath p = true ∨ hasTraversal p = true) :
    normalizePath p = Except.error NormError.invalidPathError := by
  unfold normalizePath
  cases h with
  | inl h1 => rw [if_pos h1]
  | inr h2 =>
    by_cases h1 : isAbsolutePath p = true
    · rw [if_pos h1]
    · rw [if_neg h1, if_pos h2]

/-- Path normalization produces no error other than InvalidPathError. -/
theorem normalizePath_error_only (p : String) (e : NormError)
    (h : normalizePath p = Except.error e) :
    e = NormError.invalidPathError := by
  unfold normalizePath at h
  split_ifs at h
  · exact (Except.error.inj h).symm
  · exact (Except.error.inj h).symm

/-- Normalizing a payload with a bad path fails with InvalidPathError. -/
theorem normFiles_invalid (payload : List RawFileEntry)
    (hbad : ∃ e ∈ payload,
      isAbsolutePath e.filename = true ∨ hasTraversal e.filename = true) :
    normFiles payload = Except.error NormError.invalidPathError := by
  induction payload with
  | nil =>
    obtain ⟨e, he, _⟩ := hbad
    cases he
  | cons x rest ih =>
    obtain ⟨e, he, hprop⟩ := hbad
    unfold normFiles
    rcases List.mem_cons.1 he with rfl | hrest
    · rw [normalizePath_invalid _ hprop]
    · cases hx : normalizePath x.filename with
      | error err =>
        rw [normalizePath_error_only x.filename err hx]
      | ok fn =>
        rw [ih ⟨e, hrest, hprop⟩]

/-- C7: the Normalizer is a pure function from payload and format tag to a
draft or an error; for every payload containing a filename that is an
absolute path or contains a ".." traversal segment, it returns
InvalidPathError rather than a draft. -/
theorem normalizeDraft_rejects_bad_paths (fmt : CoverageFormat)
    (payload : List RawFileEntry)
    (hbad : ∃ e ∈ payload,
      isAbsolutePath e.filename = true ∨ hasTraversal e.filename = true) :
    normalizeDraft fmt payload = Except.error NormError.invalidPathError := by
  cases fmt
  unfold normalizeDraft
  rw [normFiles_invalid payload hbad]
  rfl

/-- Witness for C7: a payload naming an absolute path. -/
theorem normalizeDraft_rejects_bad_paths_witness :
    (∃ e ∈ [RawFileEntry.mk "/etc/passwd" 1 1],
      isAbsolutePath e.filename = true ∨ hasTraversal e.filename = true) ∧
    normalizeDraft CoverageFormat.cobertura [RawFileEntry.mk "/etc/passwd" 1 1] =
      Except.error NormError.invalidPathError :=
  ⟨by decide,
    normalizeDraft_rejects_bad_paths CoverageFormat.cobertura
      [RawFileEntry.mk "/etc/passwd" 1 1] (by decide)⟩

/-- C8: while the fetched data is absent, ReportUrls and ReportPage each
render the empty div, whatever the error state; their rendering does not
depend on the error value at all. -/
theorem missing_data_renders_empty (calcTag : ℚ → String) (params : Params)
    (e1 e2 e3 : Option String) (fd : Option FilesResponse) :
    ReportUrls calcTag params none e1 = Html.emptyDiv ∧
    ReportPage calcTag params none e2 fd e3 = Html.emptyDiv ∧
    (∀ d, ReportUrls calcTag params d e1 = ReportUrls calcTag params d none) ∧
    (∀ rd, ReportPage calcTag params rd e2 fd e3 =
      ReportPage calcTag params rd none fd none) := by
  refine ⟨rfl, rfl, ?_, ?_⟩ <;> intro d <;> cases d <;> rfl

/-- C9: the rows rendered by ReportUrls appear in exactly the order of the
response's result list: the page performs no sorting, filtering or
deduplication, so the sequence of row keys, link texts and coverage cells
equals the corresponding sequence of the API response. -/
theorem table_order_follows_api (calcTag : ℚ → String) (params : Params)
    (resp : FilesResponse) :
    (renderTable calcTag params resp).map RenderedRow.key =
      resp.result.map FileRow.filename ∧
    (renderTable calcTag params resp).map RenderedRow.linkText =
      resp.result.map FileRow.filename ∧
    (renderTable calcTag params resp).map RenderedRow.cellText =
      resp.result.map (fun v => coverageCellText v.line_rate) ∧
    (renderTable calcTag params resp).length = resp.result.length := by
  refine ⟨?_, ?_, ?_, ?_⟩ <;>
    simp [renderTable, renderRow, List.map_map, Function.comp]

/-- C10: the per-file link href is built by raw string concatenation with
no URL-encoding of the filename or path parameters; a filename containing
an ampersand or a hash yields a link whose query string no longer recovers
the original filename. -/
theorem file_link_raw_concatenation :
    (∀ params filename, fileLinkHref params filename =
      "/" ++ params.org ++ "/repos/" ++ params.repo ++ "/commits/" ++
        params.commit ++ "/file?filename=" ++ filename) ∧
    getQueryParam (fileLinkHref (Params.mk "o" "r" "c") "a&b") "filename" =
      some "a" ∧
    getQueryParam (fileLinkHref (Params.mk "o" "r" "c") "a&b") "filename" ≠
      some "a&b" ∧
    getQueryParam (fileLinkHref (Params.mk "o" "r" "c") "a#b") "filename" =
      some "a" ∧
    getQueryParam (fileLinkHref (Params.mk "o" "r" "c") "a#b") "filename" ≠
      some "a#b" :=
  ⟨fun _ _ => rfl, by decide, by decide, by decide, by decide⟩

/-- Witness for C8 at the demo parameters. -/
theorem missing_data_renders_empty_witness :
    ReportUrls demoTag demoParams none none = Html.emptyDiv :=
  (missing_data_renders_empty demoTag demoParams none none none none).1

/-- Witness for C9 at the demo response. -/
theorem table_order_follows_api_witness :
    (renderTable demoTag demoParams demoResp).map RenderedRow.key =
      demoResp.result.map FileRow.filename :=
  (table_order_follows_api demoTag demoParams demoResp).1

/-- Witness for C10 at the demo parameters. -/
theorem file_link_raw_concatenation_witness :
    fileLinkHref demoParams "a.js" =
      "/" ++ demoParams.org ++ "/repos/" ++ demoParams.repo ++ "/commits/" ++
        demoParams.commit ++ "/file?filename=" ++ "a.js" :=
  file_link_raw_concatenation.1 demoParams "a.js"

end OpenCoverage
